import Mathlib

/-!
# go-playground/ws : the hub and the default client

A shallow embedding of `hub.go` and `client.go`.

The Go program is concurrent: registry mutations are closures sent over the
unbuffered channel `h.ops` and run one at a time by the single consumer
goroutine `listen`.  The embedding is sequential and passes the state
explicitly: a call of `Do` that gets past the `shutdownInit` check meets the
consumer at once, and the consumer runs the closure to completion.  A call
that can never return (a send nobody will receive, closing a closed channel)
yields a `Fault` instead of a state.

Effects on collaborators that the Go code cannot observe afterwards (the
transport being closed, a payload handed to a writer pump, a method invoked
on a `Client`) are recorded in `World.trace`, newest first.
-/

namespace Ws

/-- A payload, Go `[]byte`. -/
abbrev Msg := List Nat

/-- A transport handle, Go `*websocket.Conn`. -/
abbrev Conn := Nat

/-- The part of `*http.Request` the factories read: `r.URL.Query().Get("id")`. -/
structure Request where
  id : String
  deriving DecidableEq, Repr

/-- A value of the interface type `Client`, as used for the keys of
`Connections`.  `dflt p` is the `*client` at address `p` returned by
`NewClient`; `custom p inner id` is a `*myCustomClient` at address `p` whose
embedded `Client` field is `inner` (hub_test.go, examples/custom/main.go). -/
inductive Client where
  | dflt (ptr : Nat)
  | custom (ptr : Nat) (inner : Client) (id : String)
  deriving DecidableEq, Repr

/-- The registry `type Connections map[Client]*websocket.Conn`: an association
list whose keys are unique. -/
abbrev Connections := AList (fun _ : Client => Conn)

/-- What the collaborators are seen to do. -/
inductive Event where
  /-- `h.upgrader.Upgrade(w, r, nil)` was attempted -/
  | upgrade (r : Request)
  /-- `h.clientFn(h, conn, r)` was invoked -/
  | factory (conn : Conn) (r : Request)
  /-- `go c.Listen()` -/
  | listenCall (c : Client)
  /-- the hub executed `c.Close()` on a registry key -/
  | closeCall (c : Client)
  /-- the hub executed `c.Write(msg)` on a registry key -/
  | writeCall (c : Client) (msg : Msg)
  /-- `c.conn.Close()` of the default client at `p` -/
  | connClose (p : Nat)
  /-- `close(c.close)` of the default client at `p` -/
  | closeSignal (p : Nat)
  /-- `c.hub.Remove(c)` called by the default client at `p` -/
  | removeReq (c : Client)
  /-- `c.send <- msg` of the default client at `p` was taken by its writer pump -/
  | send (p : Nat) (msg : Msg)
  deriving DecidableEq, Repr

/-- Why a call does not return. -/
inductive Fault where
  /-- the goroutine waits for ever on a channel -/
  | blocked
  /-- run-time panic (close of a closed channel, send on a closed channel) -/
  | panicked
  deriving DecidableEq, Repr

/-- The external upgrade collaborator `websocket.Upgrader.Upgrade`: a transport
handle or an error. -/
abbrev Upgrader := Request → Except String Conn

/-- The callback `type ClientFn func(*Hub, *websocket.Conn, *http.Request) Client`.
The factory allocates: it is given the next free address and returns the
client together with the next free address afterwards. -/
abbrev ClientFn := Nat → Conn → Request → Client × Nat

/-- The `Hub` struct together with the state of the default clients.

* `once` : `h.once` has fired, that is `go h.listen()` has been executed;
* `busy` : the consumer is inside `op(h.conns)`, so nobody receives on `h.ops`;
* `shutdownInit`, `shutdown` : the channel of that name has been closed;
* `writeWait`, `pongWait`, `pingInterval` : `time.Duration` (int64 nanoseconds);
* `onceDone` : the addresses `p` of default clients whose `c.once` has fired;
* `closed` : the addresses of default clients whose channel `c.close` is closed. -/
structure World where
  upgrader : Upgrader
  once : Bool
  clientFn : ClientFn
  writeWait : Int
  pongWait : Int
  pingInterval : Int
  readLimit : Int
  conns : Connections
  busy : Bool
  shutdown : Bool
  shutdownInit : Bool
  nextPtr : Nat
  onceDone : List Nat
  closed : List Nat
  trace : List Event

/-- Record an effect. -/
def World.emit (w : World) (e : Event) : World :=
  { w with trace := e :: w.trace }

/-! ## Timing parameters -/

/-- Two's-complement wrap-around of an integer to the range of Go `int64`. -/
def wrap64 (x : Int) : Int := (x + 2 ^ 63) % 2 ^ 64 - 2 ^ 63

/-- The range of `int64`. -/
def isInt64 (x : Int) : Prop := -(2 : Int) ^ 63 ≤ x ∧ x < (2 : Int) ^ 63

instance (x : Int) : Decidable (isInt64 x) := by
  unfold isInt64; exact inferInstance

/-- `time.Second`, in nanoseconds. -/
def second : Int := 1000000000

/-- `func (h *Hub) SetPongWait(d time.Duration)`:
`h.pongWait.Store(d); h.pingInterval.Store((d * 9) / 10)`.
The product is an `int64` product; `/` truncates toward zero. -/
def SetPongWait (h : World) (d : Int) : World :=
  { h with pongWait := d, pingInterval := Int.tdiv (wrap64 (d * 9)) 10 }

/-- `func (h *Hub) SetWriteWait(d time.Duration)`. -/
def SetWriteWait (h : World) (d : Int) : World :=
  { h with writeWait := d }

/-- `func (h *Hub) SetReadLimit(size int64)`. -/
def SetReadLimit (h : World) (size : Int) : World :=
  { h with readLimit := size }

/-- `func (h *Hub) ReadLimit() int64`. -/
def ReadLimit (h : World) : Int := h.readLimit

/-- `func (h *Hub) PingInterval() time.Duration`. -/
def PingInterval (h : World) : Int := h.pingInterval

/-- `func (h *Hub) WriteDeadline() time.Time`, with `time.Now()` given. -/
def WriteDeadline (h : World) (now : Int) : Int := now + h.writeWait

/-- `func (h *Hub) ReadDeadline() time.Time`, with `time.Now()` given. -/
def ReadDeadline (h : World) (now : Int) : Int := now + h.pongWait

/-! ## The command queue -/

/-- A closure `func(conns Connections)` sent over `h.ops`. -/
abbrev Op := World → Except Fault World

/-- `func (h *Hub) Do(fn func(conns Connections))`:
```go
select {
case <-h.shutdownInit:
default:
	h.ops <- fn
}
```
When `shutdownInit` is closed the closure is dropped.  Otherwise the send
completes when the consumer receives: `listen` runs from the first `Accept`
(`once`) until it sees `shutdown` closed, after which `h.ops` is closed; while
it is inside an operation nobody receives.  The consumer then executes
`op(h.conns)`. -/
def Do (h : World) (fn : Op) : Except Fault World :=
  if h.shutdownInit then .ok h
  else if h.once && h.shutdown then .error .panicked
  else if h.once && !h.busy then
    match fn { h with busy := true } with
    | .ok h1 => .ok { h1 with busy := false }
    | .error e => .error e
  else .error .blocked

/-- `func (h *Hub) Remove(c Client)`: `h.Do(func(conns) { delete(conns, c) })`. -/
def Remove (h : World) (c : Client) : Except Fault World :=
  Do h (fun w => .ok { w with conns := w.conns.erase c })

/-! ## The default client (client.go) -/

/-- `func (c *client) Close()`, for the default client at address `p`:
```go
c.once.Do(func() {
	c.conn.Close()
	close(c.close)
	c.hub.Remove(c)
})
```
The receiver handed to `Remove` is the `*client` itself. -/
def client.Close (p : Nat) (w : World) : Except Fault World :=
  if p ∈ w.onceDone then .ok w
  else
    let w1 := ({ w with onceDone := p :: w.onceDone }).emit (.connClose p)
    if p ∈ w1.closed then .error .panicked
    else
      let w2 := ({ w1 with closed := p :: w1.closed }).emit (.closeSignal p)
      Remove (w2.emit (.removeReq (.dflt p))) (.dflt p)

/-- `func (c *client) Write(msg []byte)`, for the default client at `p`:
```go
select {
case <-c.close:
default:
	c.send <- msg
}
```
-/
def client.Write (p : Nat) (msg : Msg) (w : World) : World :=
  if p ∈ w.closed then w else w.emit (.send p msg)

/-- The default client on which the methods of an interface value end up:
`myCustomClient` embeds a `Client` and defines no method of its own, so
`Close`, `Write` and `Listen` are promoted from the embedded value. -/
def Client.base : Client → Nat
  | .dflt p => p
  | .custom _ inner _ => inner.base

/-- The method call `c.Close()` on an interface value. -/
def Client.Close : Client → World → Except Fault World
  | .dflt p, w => client.Close p w
  | .custom _ inner _, w => inner.Close w

/-- The method call `c.Write(msg)` on an interface value. -/
def Client.Write : Client → Msg → World → World
  | .dflt p, msg, w => client.Write p msg w
  | .custom _ inner _, msg, w => inner.Write msg w

/-! ## Client factories -/

/-- `NewClient(h, conn, readFn)`: a fresh `*client`. -/
def NewClient (next : Nat) : Client × Nat := (.dflt next, next + 1)

/-- The factory installed by `New` when `fn == nil`:
`return NewClient(h, conn, fn)`. -/
def defaultClientFn : ClientFn := fun next _ _ => NewClient next

/-- The factory of `TestCloseAndRemoveConnection` and of examples/custom:
`myClient = &myCustomClient{Client: NewClient(h, conn, fn), id: r.URL.Query().Get("id")}`. -/
def customClientFn : ClientFn := fun next _ r =>
  let (inner, next1) := NewClient next
  (.custom next1 inner r.id, next1 + 1)

/-! ## Hub operations (hub.go) -/

/-- The loop `for c := range conns { c.Write(msg) }` over the keys. -/
def writeAll (msg : Msg) : List Client → World → World
  | [], w => w
  | c :: cs, w => writeAll msg cs (c.Write msg (w.emit (.writeCall c msg)))

/-- The loop `for c := range conns { if filter(c) { c.Write(msg) } }`.  The
filter is a Go function handed in by the caller: on a client it returns a
boolean or does not return (it panics), and then the loop does not either. -/
def writeTo (msg : Msg) (filter : Client → Except Fault Bool) :
    List Client → World → Except Fault World
  | [], w => .ok w
  | c :: cs, w =>
    match filter c with
    | .ok true => writeTo msg filter cs (c.Write msg (w.emit (.writeCall c msg)))
    | .ok false => writeTo msg filter cs w
    | .error e => .error e

/-- A filter that returns `p c` on every client `c`. -/
def returning (p : Client → Bool) : Client → Except Fault Bool := fun c => .ok (p c)

/-- The state the loop of `writeTo` ends in when the filter returns `f c` on
each of the clients it is asked about (`writeTo_returning`). -/
def writeWhere (msg : Msg) (f : Client → Bool) : List Client → World → World
  | [], w => w
  | c :: cs, w =>
    if f c then writeWhere msg f cs (c.Write msg (w.emit (.writeCall c msg)))
    else writeWhere msg f cs w

/-- The closure of `Broadcast`. -/
def broadcastOp (msg : Msg) : Op := fun w => .ok (writeAll msg w.conns.keys w)

/-- The closure of `BroadcastTo`. -/
def broadcastToOp (msg : Msg) (filter : Client → Except Fault Bool) : Op :=
  fun w => writeTo msg filter w.conns.keys w

/-- `func (h *Hub) Broadcast(msg []byte)`. -/
def Broadcast (h : World) (msg : Msg) : Except Fault World :=
  Do h (broadcastOp msg)

/-- `func (h *Hub) BroadcastTo(msg []byte, filter func(Client) bool)`. -/
def BroadcastTo (h : World) (msg : Msg) (filter : Client → Except Fault Bool) :
    Except Fault World :=
  Do h (broadcastToOp msg filter)

/-- The loop of `Shutdown`,
```go
for c := range conns {
	delete(conns, c)
	c.Close()
}
```
over the keys present when the loop starts; an entry removed before the
iteration reaches it is not produced. -/
def closeAll : List Client → World → Except Fault World
  | [], w => .ok w
  | c :: cs, w =>
    if c ∈ w.conns.keys then
      match c.Close (({ w with conns := w.conns.erase c }).emit (.closeCall c)) with
      | .ok w1 => closeAll cs w1
      | .error e => .error e
    else closeAll cs w

/-- The closure of `Shutdown`:
```go
close(h.shutdownInit)
defer close(h.shutdown)
for c := range conns { ... }
```
-/
def shutdownOp : Op := fun w =>
  if w.shutdownInit then .error .panicked
  else
    match closeAll w.conns.keys { w with shutdownInit := true } with
    | .ok w1 => if w1.shutdown then .error .panicked else .ok { w1 with shutdown := true }
    | .error e => .error e

/-- `func (h *Hub) Shutdown()`: `h.Do(...)` and then `<-h.shutdown`. -/
def Shutdown (h : World) : Except Fault World :=
  match Do h shutdownOp with
  | .ok h1 => if h1.shutdown then .ok h1 else .error .blocked
  | .error e => .error e

/-- The closure of `add`:
```go
c := h.clientFn(h, conn, r)
conns[c] = conn
go c.Listen()
```
-/
def addOp (conn : Conn) (r : Request) : Op := fun w =>
  let cn := w.clientFn w.nextPtr conn r
  .ok ((({ w with nextPtr := cn.2, conns := w.conns.insert cn.1 conn }).emit
    (.factory conn r)).emit (.listenCall cn.1))

/-- `func (h *Hub) add(conn *websocket.Conn, r *http.Request)`. -/
def add (h : World) (conn : Conn) (r : Request) : Except Fault World :=
  Do h (addOp conn r)

/-- The error of `errors.New("Hub closed")`. -/
def hubClosed : String := "Hub closed"

/-- `func (h *Hub) Accept(w http.ResponseWriter, r *http.Request) error`.
The result is the returned error (`none` for `nil`) and the state. -/
def Accept (h : World) (r : Request) : Except Fault (Option String × World) :=
  if h.shutdownInit then .ok (some hubClosed, h)
  else
    let h1 := ({ h with once := true }).emit (.upgrade r)
    match h1.upgrader r with
    | .error err => .ok (some err, h1)
    | .ok conn =>
      match add h1 conn r with
      | .ok h2 => .ok (none, h2)
      | .error e => .error e

/-- `func New(upgrader websocket.Upgrader, fn ClientFn) *Hub`. -/
def New (upgrader : Upgrader) (fn : Option ClientFn) : World :=
  let h : World :=
    { upgrader := upgrader, once := false, clientFn := fn.getD defaultClientFn,
      writeWait := 0, pongWait := 0, pingInterval := 0, readLimit := 0,
      conns := ∅, busy := false, shutdown := false, shutdownInit := false,
      nextPtr := 0, onceDone := [], closed := [], trace := [] }
  SetPongWait (SetWriteWait (SetReadLimit h 512) (10 * second)) (60 * second)

/-- The inbound callback of the default factory: `h.Broadcast(msg)`. -/
def defaultReadFn (h : World) (msg : Msg) : Except Fault World :=
  Broadcast h msg

/-- The dynamic type of the interface value is `*myCustomClient`. -/
def Client.isCustom : Client → Bool
  | .custom _ _ _ => true
  | .dflt _ => false

/-- The filter of examples/custom: `c.(*myCustomClient).id != myClient.id`.
The type assertion panics on a client whose dynamic type is not
`*myCustomClient`. -/
def exceptSelf (myId : String) : Client → Except Fault Bool
  | .custom _ _ id => .ok (id != myId)
  | .dflt _ => .error .panicked

/-- The inbound callback of examples/custom for the client with id `myId`. -/
def customReadFn (myId : String) (h : World) (msg : Msg) : Except Fault World :=
  BroadcastTo h msg (exceptSelf myId)

/-- The filter of the factories in hub_test.go: `return true`. -/
def allClients : Client → Except Fault Bool := fun _ => .ok true

/-- `Close()` invoked `n` times in a row on the default client at `p`. -/
def closeTimes (p : Nat) : Nat → World → Except Fault World
  | 0, w => .ok w
  | n + 1, w =>
    match client.Close p w with
    | .ok w1 => closeTimes p n w1
    | .error e => .error e

/-- A caller outside the consumer can get a command through `Do`: shutdown has
been initiated (the command is dropped), or the consumer runs and is idle. -/
def Hub.accepts (w : World) : Prop :=
  w.shutdownInit = true ∨ (w.once = true ∧ w.shutdown = false ∧ w.busy = false)

instance (w : World) : Decidable (Hub.accepts w) := by
  unfold Hub.accepts; exact inferInstance

/-- A hub built with the factory of `TestCloseAndRemoveConnection`, the
upgrade collaborator handing out transport `7`. -/
def testHub : World := New (fun _ => .ok 7) (some customClientFn)

/-- A hub built with the default factory. -/
def plainHub : World := New (fun _ => .ok 7) none

/-- The state of an `Accept` that returned. -/
def afterAccept (h : World) (r : Request) : World :=
  match Accept h r with
  | .ok (_, h1) => h1
  | .error _ => h

/-- The state of a call that returned. -/
def stateOf (h : World) (x : Except Fault World) : World :=
  match x with
  | .ok h1 => h1
  | .error _ => h

/-- The close channel of a default client is closed only inside its
`once.Do`: every client whose close signal has fired has a fired `once`. -/
def Consistent (w : World) : Prop := ∀ p ∈ w.closed, p ∈ w.onceDone

instance (w : World) : Decidable (Consistent w) := by
  unfold Consistent; exact inferInstance

/-- Two connections accepted by the hub of `TestCloseAndRemoveConnection`. -/
def twoClients : World := afterAccept (afterAccept testHub ⟨"1"⟩) ⟨"2"⟩

/-- Two connections accepted by a hub with the default factory. -/
def twoPlain : World := afterAccept (afterAccept plainHub ⟨"1"⟩) ⟨"2"⟩

/-- The consumer runs and is idle, and shutdown has not been initiated: a
command sent through `Do` is executed. -/
def Hub.running (w : World) : Prop :=
  w.once = true ∧ w.shutdownInit = false ∧ w.shutdown = false ∧ w.busy = false

instance (w : World) : Decidable (Hub.running w) := by
  unfold Hub.running; exact inferInstance

/-- The state in which the first `Shutdown()` of `TestCloseAndRemoveConnection`
returns. -/
def afterShutdown : World := stateOf twoClients (Shutdown twoClients)

/-! ## The writer pump (client.go, `write`) -/

/-- What the writer pump of one default client is seen to do, newest first in
a log: the calls on its transport, the lines it logs, and the three statements
of its deferred function. -/
inductive PumpEvent where
  /-- `c.conn.SetWriteDeadline(c.hub.WriteDeadline())` -/
  | setWriteDeadline
  /-- `c.conn.WriteMessage(websocket.PingMessage, empty)` -/
  | writePing
  /-- `c.conn.NextWriter(websocket.TextMessage)` -/
  | nextWriter
  /-- `w.Write(msg)` on the message writer -/
  | write (msg : Msg)
  /-- `w.Close()` on the message writer -/
  | closeWriter
  /-- `log.Printf(what, err)` -/
  | logged (what : String) (err : String)
  /-- deferred `c.Close()` -/
  | close
  /-- deferred `ticker.Stop()` -/
  | tickerStop
  /-- deferred `close(c.send)` -/
  | closeSend
  deriving DecidableEq, Repr

/-- The case of the `select` in the loop of `write` that fires. -/
inductive Select where
  /-- `case <-c.close:` -/
  | closeSignal
  /-- `case <-ticker.C:` -/
  | tick
  /-- `case msg := <-c.send:` -/
  | send (msg : Msg)
  deriving DecidableEq, Repr

/-- The errors the transport returns to the calls of one iteration (`none` for
`nil`); a call that the iteration does not reach does not use its field. -/
structure Replies where
  /-- of `c.conn.SetWriteDeadline` -/
  deadline : Option String
  /-- of `c.conn.WriteMessage(websocket.PingMessage, empty)` -/
  ping : Option String
  /-- of `c.conn.NextWriter(websocket.TextMessage)` -/
  nextWriter : Option String
  /-- of `w.Write(msg)` -/
  write : Option String
  /-- of `w.Close()` -/
  close : Option String
  deriving DecidableEq, Repr

/-- The transport answers every call with `nil`. -/
def Replies.allOk : Replies :=
  { deadline := none, ping := none, nextWriter := none, write := none, close := none }

/-- One pass through the body of the loop `FOR` of `write`:
```go
select {
case <-c.close:
	break FOR
case <-ticker.C:
	err := c.conn.SetWriteDeadline(c.hub.WriteDeadline())
	if err != nil { log.Printf(...); break FOR }
	if err := c.conn.WriteMessage(websocket.PingMessage, empty); err != nil {
		log.Printf(...); break FOR
	}
case msg := <-c.send:
	err := c.conn.SetWriteDeadline(c.hub.WriteDeadline())
	if err != nil { log.Printf(...); break FOR }
	w, err := c.conn.NextWriter(websocket.TextMessage)
	if err != nil { log.Printf(...); break FOR }
	_, err = w.Write(msg)
	if err != nil { log.Printf(...) }
	if err = w.Close(); err != nil { break FOR }
}
```
The result says whether the loop goes on (`true`) or `break FOR` was executed
(`false`), and gives the log. -/
def client.writeIter (s : Select) (r : Replies) (log : List PumpEvent) :
    Bool × List PumpEvent :=
  match s with
  | .closeSignal => (false, log)
  | .tick =>
    match r.deadline with
    | some e => (false, .logged "error setting write deadline" e :: .setWriteDeadline :: log)
    | none =>
      match r.ping with
      | some e =>
        (false, .logged "error sending ping message" e :: .writePing :: .setWriteDeadline :: log)
      | none => (true, .writePing :: .setWriteDeadline :: log)
  | .send msg =>
    match r.deadline with
    | some e => (false, .logged "error setting write deadline" e :: .setWriteDeadline :: log)
    | none =>
      match r.nextWriter with
      | some e =>
        (false, .logged "error retrieving next writer" e :: .nextWriter :: .setWriteDeadline :: log)
      | none =>
        let log1 : List PumpEvent :=
          match r.write with
          | some e =>
            .logged "error writing message" e :: .write msg :: .nextWriter ::
              .setWriteDeadline :: log
          | none => .write msg :: .nextWriter :: .setWriteDeadline :: log
        match r.close with
        | some _ => (false, .closeWriter :: log1)
        | none => (true, .closeWriter :: log1)

/-- The loop `FOR` of `write`, run on the cases that fire and the answers of
the transport, in order.  The result says whether `break FOR` was executed
(`true`) or the pump is still waiting in `select` (`false`). -/
def client.writeLoop : List (Select × Replies) → List PumpEvent → Bool × List PumpEvent
  | [], log => (false, log)
  | (s, r) :: rest, log =>
    match client.writeIter s r log with
    | (true, log1) => client.writeLoop rest log1
    | (false, log1) => (true, log1)

/-- `func (c *client) write()`, for the default client at `p`:
```go
ticker := time.NewTicker(c.hub.PingInterval())
defer func() {
	c.Close()
	ticker.Stop()
	close(c.send)
}()
FOR: ...
```
`time.NewTicker` panics on a duration that is not positive.  The result says
whether `write` has returned, and gives the log of the pump and the state. -/
def client.write (p : Nat) (sched : List (Select × Replies)) (w : World) :
    Except Fault (Bool × List PumpEvent × World) :=
  if PingInterval w ≤ 0 then .error .panicked
  else
    match client.writeLoop sched [] with
    | (false, log) => .ok (false, log, w)
    | (true, log) =>
      match client.Close p w with
      | .ok w1 => .ok (true, .closeSend :: .tickerStop :: .close :: log, w1)
      | .error e => .error e

/-- An iteration in which a deadline-set, the ping, or the message write fails:
the message write being the three calls `NextWriter`, `w.Write(msg)` and
`w.Close()`. -/
def iterFails (s : Select) (r : Replies) : Prop :=
  match s with
  | .closeSignal => False
  | .tick => r.deadline.isSome ∨ r.ping.isSome
  | .send _ => r.deadline.isSome ∨ r.nextWriter.isSome ∨ r.write.isSome ∨ r.close.isSome

/-- An iteration that reaches a `break FOR`: a deadline-set, the ping,
`NextWriter` or the `w.Close()` that completes the message fails. -/
def iterBreaks (s : Select) (r : Replies) : Prop :=
  match s with
  | .closeSignal => False
  | .tick => r.deadline.isSome ∨ r.ping.isSome
  | .send _ => r.deadline.isSome ∨ r.nextWriter.isSome ∨ r.close.isSome

instance (s : Select) (r : Replies) : Decidable (iterFails s r) := by
  unfold iterFails; cases s <;> exact inferInstance

instance (s : Select) (r : Replies) : Decidable (iterBreaks s r) := by
  unfold iterBreaks; cases s <;> exact inferInstance

/-- The message writer of the transport (`*websocket.Conn`, an external
library) keeps the error of a failed `w.Write`: the `w.Close()` that follows
returns an error too, so a message whose payload could not be written is never
reported as completed. -/
def Replies.keepsError (r : Replies) : Prop := r.write.isSome → r.close.isSome

instance (r : Replies) : Decidable r.keepsError := by
  unfold Replies.keepsError; exact inferInstance

/-- Replies that no writer which keeps its error gives: `w.Write(msg)` fails
and every other call, `w.Close()` included, returns `nil`. -/
def writeFails : Replies := { Replies.allOk with write := some "broken pipe" }

/-- The writer fails `w.Write(msg)` and returns the error from `w.Close()`. -/
def writeBroken : Replies :=
  { Replies.allOk with write := some "broken pipe", close := some "broken pipe" }

/-- One connection accepted by a hub with the default factory. -/
def onePlain : World := afterAccept plainHub ⟨"1"⟩

/-! ## Timing parameters: theorems -/

theorem wrap64_of_isInt64 {x : Int} (h : isInt64 x) : wrap64 x = x := by
  unfold isInt64 at h
  unfold wrap64
  have h1 : (x + 2 ^ 63) % 2 ^ 64 = x + 2 ^ 63 :=
    Int.emod_eq_of_lt (by omega) (by omega)
  omega

/-- C10, as stated, fails: for the `int64` duration `d = 2^62` the product
`d * 9` wraps around, and `PingInterval()` after `SetPongWait(d)` is
`2^62 / 10`, not `9 * 2^62 / 10`. -/
theorem C10_pingInterval_overflow :
    isInt64 (2 ^ 62) ∧
    (SetPongWait plainHub (2 ^ 62)).pongWait = 2 ^ 62 ∧
    PingInterval (SetPongWait plainHub (2 ^ 62)) = 461168601842738790 ∧
    Int.tdiv (9 * 2 ^ 62) 10 = 4150517416584649113 ∧
    PingInterval (SetPongWait plainHub (2 ^ 62)) ≠ Int.tdiv (9 * 2 ^ 62) 10 := by
  refine ⟨by decide, rfl, ?_, by decide, ?_⟩ <;>
    simp only [PingInterval, SetPongWait] <;> decide

theorem tdiv_ten (x : Int) :
    Int.tdiv x 10 = if 0 ≤ x then x / 10 else -((-x) / 10) := by
  by_cases h : 0 ≤ x
  · simp only [h, if_true]
    exact Int.tdiv_eq_ediv h (by decide)
  · simp only [h, if_false]
    have h1 : 0 ≤ -x := by omega
    have := Int.tdiv_eq_ediv h1 (show (0 : Int) ≤ 10 by decide)
    rw [Int.neg_tdiv] at this
    omega

theorem wrap64_tdiv_ne {d : Int} (hd : isInt64 d) (h9 : ¬ isInt64 (9 * d)) :
    Int.tdiv (wrap64 (9 * d)) 10 ≠ Int.tdiv (9 * d) 10 := by
  unfold isInt64 at hd h9
  unfold wrap64
  rw [tdiv_ten, tdiv_ten]
  have hq : (9 * d + 2 ^ 63) / 2 ^ 64 ≤ -1 ∨ (9 * d + 2 ^ 63) / 2 ^ 64 = 0 ∨
      1 ≤ (9 * d + 2 ^ 63) / 2 ^ 64 := by omega
  rcases hq with hq | hq | hq <;> split <;> split <;> omega

/-- C10, amended: for every `int64` duration `d`, after `SetPongWait(d)` the
pong-wait value is `d`, `PingInterval()` is the quotient by ten, truncated
toward zero, of the `int64` product `d * 9`, that is of `9 * d` wrapped around
to 64 bits, and the write-wait and read-limit values are unchanged.
`PingInterval()` is the exact integer quotient `9 * d / 10` truncated toward
zero whenever `9 * d` is itself an `int64`, and differs from it whenever it is
not. -/
theorem C10_setPongWait (h : World) (d : Int) (hd : isInt64 d) :
    (SetPongWait h d).pongWait = d ∧
    PingInterval (SetPongWait h d) = Int.tdiv (wrap64 (9 * d)) 10 ∧
    isInt64 (wrap64 (9 * d)) ∧
    (SetPongWait h d).writeWait = h.writeWait ∧
    ReadLimit (SetPongWait h d) = ReadLimit h ∧
    (SetPongWait h d).conns = h.conns ∧
    (isInt64 (9 * d) → PingInterval (SetPongWait h d) = Int.tdiv (9 * d) 10) ∧
    (¬ isInt64 (9 * d) → PingInterval (SetPongWait h d) ≠ Int.tdiv (9 * d) 10) := by
  have hp : PingInterval (SetPongWait h d) = Int.tdiv (wrap64 (9 * d)) 10 := by
    simp only [PingInterval, SetPongWait, mul_comm]
  refine ⟨rfl, hp, ?_, rfl, rfl, rfl, ?_, ?_⟩
  · unfold isInt64 wrap64
    have h1 := Int.emod_nonneg (9 * d + 2 ^ 63) (b := 2 ^ 64) (by decide)
    have h2 := Int.emod_lt_of_pos (9 * d + 2 ^ 63) (b := 2 ^ 64) (by decide)
    omega
  · intro h9
    rw [hp, wrap64_of_isInt64 h9]
  · intro h9
    rw [hp]
    exact wrap64_tdiv_ne hd h9

theorem C10_setPongWait_witness :
    isInt64 (60 * second) ∧ isInt64 (9 * (60 * second)) ∧
    PingInterval (SetPongWait plainHub (60 * second)) = 54 * second ∧
    isInt64 (2 ^ 62) ∧ ¬ isInt64 (9 * 2 ^ 62) ∧
    PingInterval (SetPongWait plainHub (2 ^ 62)) = Int.tdiv (wrap64 (9 * 2 ^ 62)) 10 ∧
    PingInterval (SetPongWait plainHub (2 ^ 62)) ≠ Int.tdiv (9 * 2 ^ 62) 10 :=
  ⟨by decide, by decide, by
    rw [(C10_setPongWait plainHub (60 * second) (by decide)).2.2.2.2.2.2.1 (by decide)]
    decide,
   by decide, by decide, (C10_setPongWait plainHub (2 ^ 62) (by decide)).2.1,
   (C10_setPongWait plainHub (2 ^ 62) (by decide)).2.2.2.2.2.2.2 (by decide)⟩

/-! ## The default client: theorems -/

theorem client_Close_done {p : Nat} {w : World} (h : p ∈ w.onceDone) :
    client.Close p w = .ok w := by
  simp [client.Close, h]

theorem client_Close_first {p : Nat} {w : World} (h1 : p ∉ w.onceDone)
    (h2 : p ∉ w.closed) (ha : Hub.accepts w) :
    client.Close p w = .ok
      { w with
        onceDone := p :: w.onceDone
        closed := p :: w.closed
        conns := if w.shutdownInit then w.conns else w.conns.erase (.dflt p)
        trace := .removeReq (.dflt p) :: .closeSignal p :: .connClose p :: w.trace } := by
  rcases ha with ha | ⟨ho, hs, hb⟩
  · simp [client.Close, h1, h2, World.emit, Remove, Do, ha]
  · cases hi : w.shutdownInit
    · simp [client.Close, h1, h2, World.emit, Remove, Do, hi, ho, hs, hb]
    · simp [client.Close, h1, h2, World.emit, Remove, Do, hi]

theorem closeTimes_done {p : Nat} {w : World} (h : p ∈ w.onceDone) (n : Nat) :
    closeTimes p n w = .ok w := by
  induction n with
  | zero => rfl
  | succ n ih => simp [closeTimes, client_Close_done h, ih]

/-- C2: on a default client that has not been closed, of a hub that takes
commands, `Close()` invoked `N ≥ 1` times returns each time; together the calls
close the transport once, fire the close signal once and call `hub.Remove`
once, and that is the work of the first call: every later call returns the
state it was given. -/
theorem C2_close_idempotent (p : Nat) (w : World) (N : Nat) (hN : 1 ≤ N)
    (h1 : p ∉ w.onceDone) (h2 : p ∉ w.closed) (ha : Hub.accepts w) :
    ∃ w1, client.Close p w = .ok w1 ∧ closeTimes p N w = .ok w1 ∧
      w1.trace = .removeReq (.dflt p) :: .closeSignal p :: .connClose p :: w.trace ∧
      w1.trace.count (.connClose p) = w.trace.count (.connClose p) + 1 ∧
      w1.trace.count (.closeSignal p) = w.trace.count (.closeSignal p) + 1 ∧
      w1.trace.count (.removeReq (.dflt p)) = w.trace.count (.removeReq (.dflt p)) + 1 ∧
      p ∈ w1.closed ∧
      (∀ k, closeTimes p k w1 = .ok w1) ∧ client.Close p w1 = .ok w1 := by
  obtain ⟨n, rfl⟩ : ∃ n, N = n + 1 := ⟨N - 1, by omega⟩
  have hc := client_Close_first h1 h2 ha
  refine ⟨_, hc, ?_, rfl, ?_, ?_, ?_, ?_, ?_, ?_⟩
  · simp only [closeTimes, hc]
    exact closeTimes_done (by simp) n
  · simp
  · simp
  · simp
  · simp
  · intro k; exact closeTimes_done (by simp) k
  · exact client_Close_done (by simp)

theorem C2_close_idempotent_witness :
    ∃ w1, client.Close 0 (afterAccept plainHub ⟨"1"⟩) = .ok w1 ∧
      closeTimes 0 3 (afterAccept plainHub ⟨"1"⟩) = .ok w1 ∧
      w1.trace.count (.connClose 0) = 1 := by
  obtain ⟨w1, ha, hb, _, hc, _⟩ :=
    C2_close_idempotent 0 (afterAccept plainHub ⟨"1"⟩) 3 (by decide) (by decide) (by decide)
      (by decide)
  exact ⟨w1, ha, hb, by rw [hc]; decide⟩

theorem Client_Close_base (c : Client) (w : World) :
    c.Close w = client.Close c.base w := by
  induction c with
  | dflt p => rfl
  | custom p inner id ih => simpa [Client.Close, Client.base] using ih

theorem Client_Write_base (c : Client) (msg : Msg) (w : World) :
    c.Write msg w = client.Write c.base msg w := by
  induction c with
  | dflt p => rfl
  | custom p inner id ih => simpa [Client.Write, Client.base] using ih

/-! ## Commands after shutdown has been initiated -/

theorem Do_dropped {w : World} (hs : w.shutdownInit = true) (fn : Op) :
    Do w fn = .ok w := by
  simp [Do, hs]

/-- What `c.Close()` does once shutdown has been initiated: the deregistration
is dropped, so the registry and the hub flags stay as they are. -/
theorem Close_during_shutdown (c : Client) {w : World} (hs : w.shutdownInit = true)
    (hc : Consistent w) :
    ∃ w1, c.Close w = .ok w1 ∧ w1.conns = w.conns ∧ w1.shutdownInit = true ∧
      w1.shutdown = w.shutdown ∧ w1.once = w.once ∧ w1.busy = w.busy ∧ Consistent w1 ∧
      (∀ k, w1.trace.count (.closeCall k) = w.trace.count (.closeCall k)) ∧
      c.base ∈ w1.onceDone ∧ (∀ q ∈ w.onceDone, q ∈ w1.onceDone) := by
  rw [Client_Close_base]
  by_cases h1 : c.base ∈ w.onceDone
  · exact ⟨w, client_Close_done h1, rfl, hs, rfl, rfl, rfl, hc, fun _ => rfl, h1, fun _ h => h⟩
  · have h2 : c.base ∉ w.closed := fun h => h1 (hc _ h)
    refine ⟨_, client_Close_first h1 h2 (Or.inl hs), ?_, hs, rfl, rfl, rfl, ?_, ?_, ?_, ?_⟩
    · simp [hs]
    · intro q hq
      simp only [List.mem_cons] at hq ⊢
      rcases hq with hq | hq
      · exact Or.inl hq
      · exact Or.inr (hc q hq)
    · intro k; simp
    · simp
    · intro q hq; simp [hq]

theorem closeAll_spec (ks : List Client) :
    ∀ w : World, w.shutdownInit = true → Consistent w →
    ∃ w1, closeAll ks w = .ok w1 ∧ w1.shutdownInit = true ∧
      w1.shutdown = w.shutdown ∧ w1.once = w.once ∧ w1.busy = w.busy ∧ Consistent w1 ∧
      (∀ c, c ∈ w1.conns.keys ↔ c ∈ w.conns.keys ∧ c ∉ ks) ∧
      (∀ c, w1.trace.count (.closeCall c) =
        w.trace.count (.closeCall c) + if c ∈ w.conns.keys ∧ c ∈ ks then 1 else 0) ∧
      (∀ c ∈ w.conns.keys, c ∈ ks → c.base ∈ w1.onceDone) ∧
      (∀ q ∈ w.onceDone, q ∈ w1.onceDone) := by
  induction ks with
  | nil =>
    intro w hs hc
    exact ⟨w, rfl, hs, rfl, rfl, rfl, hc, by simp, by simp, by simp, fun _ h => h⟩
  | cons k ks ih =>
    intro w hs hc
    by_cases hk : k ∈ w.conns.keys
    · obtain ⟨w1, e1, c1, i1, s1, o1, b1, n1, t1, d1, m1⟩ :=
        Close_during_shutdown k
          (w := ({ w with conns := w.conns.erase k }).emit (.closeCall k)) hs hc
      obtain ⟨w2, e2, i2, s2, o2, b2, n2, r2, t2, d2, m2⟩ := ih w1 i1 n1
      have hkeys : ∀ c, c ∈ w1.conns.keys ↔ c ≠ k ∧ c ∈ w.conns.keys := by
        intro c
        rw [c1]
        simp only [World.emit, AList.keys_erase]
        exact w.conns.keys_nodup.mem_erase_iff
      refine ⟨w2, ?_, i2, ?_, ?_, ?_, n2, ?_, ?_, ?_, ?_⟩
      · simp only [closeAll, hk, if_true, e1, e2]
      · rw [s2, s1]; rfl
      · rw [o2, o1]; rfl
      · rw [b2, b1]; rfl
      · intro c
        rw [r2, hkeys]
        simp only [List.mem_cons, not_or]
        tauto
      · intro c
        rw [t2, t1]
        simp only [World.emit, hkeys, List.mem_cons, List.count_cons]
        by_cases hck : c = k
        · subst hck
          simp [hk]
        · have : ¬ (Event.closeCall k = Event.closeCall c) := by
            intro h; injection h with h; exact hck h.symm
          simp [hck, this]
      · intro c hc1 hc2
        rcases List.mem_cons.mp hc2 with h | h
        · subst h; exact m2 _ d1
        · by_cases hck : c = k
          · subst hck; exact m2 _ d1
          · exact d2 c ((hkeys c).mpr ⟨hck, hc1⟩) h
      · intro q hq
        exact m2 q (m1 q hq)
    · obtain ⟨w2, e2, i2, s2, o2, b2, n2, r2, t2, d2, m2⟩ := ih w hs hc
      refine ⟨w2, ?_, i2, s2, o2, b2, n2, ?_, ?_, ?_, m2⟩
      · simp only [closeAll, hk, if_false, e2]
      · intro c
        rw [r2]
        simp only [List.mem_cons, not_or]
        constructor
        · rintro ⟨h1, h2⟩
          exact ⟨h1, fun h => hk (h ▸ h1), h2⟩
        · rintro ⟨h1, _, h2⟩
          exact ⟨h1, h2⟩
      · intro c
        rw [t2]
        by_cases hck : c = k
        · subst hck; simp [hk]
        · simp [hck]
      · intro c hc1 hc2
        rcases List.mem_cons.mp hc2 with h | h
        · subst h; exact absurd hc1 hk
        · exact d2 c hc1 h

theorem keys_eq_nil_iff (m : Connections) : m.keys = [] ↔ m = ∅ := by
  constructor
  · intro h
    apply AList.ext
    have : m.entries.map Sigma.fst = [] := h
    simpa using this
  · rintro rfl; rfl

/-- The first `Shutdown()` on a running hub, in terms of the state the loop
of the shutdown command ends in. -/
theorem Shutdown_first {w : World} (ho : w.once = true) (hi : w.shutdownInit = false)
    (hs : w.shutdown = false) (hb : w.busy = false) (hc : Consistent w) :
    ∃ w1, Shutdown w = .ok { w1 with shutdown := true, busy := false } ∧
      closeAll w.conns.keys { w with busy := true, shutdownInit := true } = .ok w1 ∧
      w1.shutdownInit = true ∧ w1.conns = ∅ ∧ Consistent w1 ∧
      (∀ c, w1.trace.count (.closeCall c) =
        w.trace.count (.closeCall c) + if c ∈ w.conns.keys then 1 else 0) ∧
      (∀ c ∈ w.conns.keys, c.base ∈ w1.onceDone) := by
  obtain ⟨w1, e1, i1, s1, o1, b1, n1, r1, t1, d1, _⟩ :=
    closeAll_spec w.conns.keys { w with busy := true, shutdownInit := true } rfl hc
  have hs1 : w1.shutdown = false := by rw [s1]; exact hs
  refine ⟨w1, ?_, e1, i1, ?_, n1, ?_, ?_⟩
  · have e2 := e1
    simp only [ho, hs] at e2
    simp [Shutdown, Do, shutdownOp, hi, ho, hs, hb, e2, hs1]
  · rw [← keys_eq_nil_iff]
    apply List.eq_nil_iff_forall_not_mem.mpr
    intro c hmem
    exact ((r1 c).mp hmem).2 ((r1 c).mp hmem).1
  · intro c
    rw [t1]
    by_cases h : c ∈ w.conns.keys <;> simp [h]
  · intro c hmem
    exact d1 c hmem hmem

/-- C1: on a hub whose consumer runs and on which shutdown has not been
initiated, whatever the registry holds, `Shutdown()` returns; in the state it
returns the registry is empty, the shutdown command has invoked `Close()`
exactly once on every client that was in the registry and on no other client,
every one of those clients is closed, and both `shutdownInit` and `shutdown`
are closed. -/
theorem C1_shutdown (w : World) (ho : w.once = true) (hi : w.shutdownInit = false)
    (hs : w.shutdown = false) (hb : w.busy = false) (hc : Consistent w) :
    ∃ w1, Shutdown w = .ok w1 ∧ w1.conns = ∅ ∧
      (∀ c ∈ w.conns.keys,
        w1.trace.count (.closeCall c) = w.trace.count (.closeCall c) + 1) ∧
      (∀ c, c ∉ w.conns.keys →
        w1.trace.count (.closeCall c) = w.trace.count (.closeCall c)) ∧
      (∀ c ∈ w.conns.keys, c.base ∈ w1.onceDone) ∧
      w1.shutdownInit = true ∧ w1.shutdown = true := by
  obtain ⟨w1, e, _, i1, c1, _, t1, d1⟩ := Shutdown_first ho hi hs hb hc
  refine ⟨_, e, c1, ?_, ?_, d1, i1, rfl⟩
  · intro c hmem
    have := t1 c
    simpa [hmem] using this
  · intro c hmem
    have := t1 c
    simpa [hmem] using this

theorem C1_shutdown_witness :
    twoPlain.conns.keys = [.dflt 1, .dflt 0] ∧
    ∃ w1, Shutdown twoPlain = .ok w1 ∧ w1.conns = ∅ ∧
      w1.trace.count (.closeCall (.dflt 0)) = 1 ∧ w1.shutdown = true := by
  obtain ⟨w1, e, c1, t1, _, _, _, s1⟩ :=
    C1_shutdown twoPlain (by decide) (by decide) (by decide) (by decide) (by decide)
  exact ⟨by decide, w1, e, c1, by rw [t1 (.dflt 0) (by decide)]; decide, s1⟩

/-! ## Remove -/

theorem erase_of_not_mem {m : Connections} {c : Client} (h : c ∉ m.keys) :
    m.erase c = m := by
  apply AList.ext
  exact List.kerase_of_not_mem_keys h

theorem Do_running {w : World} (hr : Hub.running w) (fn : Op) :
    Do w fn = match fn { w with busy := true } with
      | .ok h1 => .ok { h1 with busy := false }
      | .error e => .error e := by
  obtain ⟨ho, hi, hs, hb⟩ := hr
  simp [Do, ho, hi, hs, hb]

/-- C8: on a running hub, for every registry and every client `c`, `Remove(c)`
returns, and the command it executes leaves the registry with the entry of
`c` deleted and every other entry as it was; nothing is done to any
collaborator (no transport is closed), and no close signal and no `once` of a
client changes.  When `c` is not in the registry, the registry is unchanged. -/
theorem C8_remove (w : World) (c : Client) (hr : Hub.running w) :
    ∃ w1, Remove w c = .ok w1 ∧
      w1.conns = w.conns.erase c ∧
      c ∉ w1.conns.keys ∧
      (∀ k, k ≠ c → w1.conns.lookup k = w.conns.lookup k) ∧
      (∀ k, k ≠ c → (k ∈ w1.conns.keys ↔ k ∈ w.conns.keys)) ∧
      w1.trace = w.trace ∧ w1.closed = w.closed ∧ w1.onceDone = w.onceDone ∧
      (c ∉ w.conns.keys → w1.conns = w.conns) := by
  refine ⟨{ w with conns := w.conns.erase c, busy := false }, ?_, rfl, ?_, ?_, ?_, rfl, rfl,
    rfl, ?_⟩
  · simp [Remove, Do_running hr]
  · intro h
    exact ((AList.mem_erase (s := w.conns)).mp (AList.mem_keys.mpr h)).1 rfl
  · intro k hk
    exact AList.lookup_erase_ne hk
  · intro k hk
    show k ∈ w.conns.erase c ↔ k ∈ w.conns
    rw [AList.mem_erase]
    exact ⟨fun h => h.2, fun h => ⟨hk, h⟩⟩
  · intro h
    exact erase_of_not_mem h

theorem C8_remove_witness :
    ∃ w1, Remove twoClients (.custom 3 (.dflt 2) "2") = .ok w1 ∧
      w1.conns.keys = [.custom 1 (.dflt 0) "1"] ∧ w1.closed = [] := by
  obtain ⟨w1, e, c1, _, _, _, _, cl, _⟩ :=
    C8_remove twoClients (.custom 3 (.dflt 2) "2") (by decide)
  exact ⟨w1, e, by rw [c1]; decide, by rw [cl]; decide⟩

/-! ## After shutdown -/

/-- C7: in every state in which shutdown has been initiated, `Do(fn)` returns
the state it was given, for every `fn`: the closure is neither sent nor run,
and the registry, `shutdownInit` and `shutdown` are as before.  So
`Broadcast`, `BroadcastTo` and `Remove` return the state unchanged, and once
`shutdown` is closed a further `Shutdown()` returns the state unchanged, with
no `Close()` and no other effect recorded. -/
theorem C7_dropped_after_shutdown (w : World) (hi : w.shutdownInit = true) :
    (∀ fn : Op, Do w fn = .ok w) ∧
    (∀ msg, Broadcast w msg = .ok w) ∧
    (∀ msg filter, BroadcastTo w msg filter = .ok w) ∧
    (∀ c, Remove w c = .ok w) ∧
    (w.shutdown = true → Shutdown w = .ok w) := by
  refine ⟨fun fn => Do_dropped hi fn, fun _ => Do_dropped hi _, fun _ _ => Do_dropped hi _,
    fun _ => Do_dropped hi _, ?_⟩
  intro hs
  simp [Shutdown, Do_dropped hi, hs]

theorem C7_dropped_after_shutdown_witness :
    afterShutdown.trace.count (.closeCall (.custom 1 (.dflt 0) "1")) = 1 ∧
    Shutdown afterShutdown = .ok afterShutdown ∧
    Do afterShutdown (fun w => .ok { w with conns := twoClients.conns }) = .ok afterShutdown :=
  ⟨by decide,
   (C7_dropped_after_shutdown afterShutdown (by decide)).2.2.2.2 (by decide),
   (C7_dropped_after_shutdown afterShutdown (by decide)).1 _⟩

/-! ## Accept -/

theorem Accept_closed {w : World} (hi : w.shutdownInit = true) (r : Request) :
    Accept w r = .ok (some hubClosed, w) := by
  simp [Accept, hi]

/-- C6: when `Shutdown()` has returned on a hub (one whose consumer was
running), then for every request `Accept` returns the error `Hub closed` and
the state it was given: no upgrade is attempted, the factory is not invoked,
and the registry, empty since the shutdown, is still empty. -/
theorem C6_accept_after_shutdown (w0 w : World) (r : Request) (hr : Hub.running w0)
    (hc : Consistent w0) (h : Shutdown w0 = .ok w) :
    Accept w r = .ok (some hubClosed, w) ∧
    w.conns = ∅ ∧
    (afterAccept w r).conns = ∅ ∧
    (afterAccept w r).trace = w.trace ∧
    (afterAccept w r).nextPtr = w.nextPtr := by
  obtain ⟨ho, hi, hs, hb⟩ := hr
  obtain ⟨w1, e, _, i1, c1, _⟩ := Shutdown_first ho hi hs hb hc
  rw [e] at h
  injection h with h
  subst h
  have ha := Accept_closed (w := { w1 with shutdown := true, busy := false }) i1 r
  refine ⟨ha, c1, ?_, ?_, ?_⟩ <;> simp only [afterAccept, ha]
  exact c1

theorem C6_accept_after_shutdown_witness :
    Accept afterShutdown ⟨"3"⟩ = .ok (some "Hub closed", afterShutdown) ∧
    (afterAccept afterShutdown ⟨"3"⟩).conns = ∅ := by
  have h : Shutdown twoClients = .ok afterShutdown := by
    obtain ⟨w1, e, _⟩ :=
      Shutdown_first (w := twoClients) (by decide) (by decide) (by decide) (by decide)
        (by decide)
    simp [afterShutdown, e, stateOf]
  obtain ⟨a, _, b, _⟩ :=
    C6_accept_after_shutdown twoClients afterShutdown ⟨"3"⟩ (by decide) (by decide) h
  exact ⟨a, b⟩

/-! ## Broadcast and BroadcastTo -/

theorem client_Write_frame (p : Nat) (msg : Msg) (w : World) :
    client.Write p msg w = { w with trace := (client.Write p msg w).trace } ∧
    ∀ k m, (client.Write p msg w).trace.count (.writeCall k m) =
      w.trace.count (.writeCall k m) := by
  unfold client.Write
  by_cases h : p ∈ w.closed
  · simp [h]
  · simp [h, World.emit]

theorem writeWhere_spec (msg : Msg) (f : Client → Bool) (ks : List Client) :
    ∀ w : World,
      writeWhere msg f ks w = { w with trace := (writeWhere msg f ks w).trace } ∧
      ∀ k m, (writeWhere msg f ks w).trace.count (.writeCall k m) =
        w.trace.count (.writeCall k m) +
          if m = msg ∧ f k = true then ks.count k else 0 := by
  induction ks with
  | nil => intro w; simp [writeWhere]
  | cons c cs ih =>
    intro w
    by_cases hf : f c = true
    · simp only [writeWhere, hf, if_true]
      obtain ⟨e1, t1⟩ := ih (c.Write msg (w.emit (.writeCall c msg)))
      obtain ⟨e2, t2⟩ := client_Write_frame c.base msg (w.emit (.writeCall c msg))
      rw [← Client_Write_base] at e2 t2
      constructor
      · rw [e1]
        rw [e2]
        rfl
      · intro k m
        rw [t1, t2]
        simp only [World.emit, List.count_cons]
        by_cases hk : k = c
        · subst hk
          by_cases hm : m = msg
          · subst hm; simp [hf]; omega
          · have : ¬ (Event.writeCall k msg = Event.writeCall k m) := by
              intro h; injection h with _ h; exact hm h.symm
            simp [hm, this]
        · have : ¬ (Event.writeCall c msg = Event.writeCall k m) := by
            intro h; injection h with h _; exact hk h.symm
          have hc : ¬ (c = k) := fun h => hk h.symm
          simp [this, hc]
    · simp only [writeWhere, hf]
      obtain ⟨e1, t1⟩ := ih w
      refine ⟨e1, ?_⟩
      intro k m
      have t := t1 k m
      by_cases hk : k = c
      · subst hk
        simpa [hf] using t
      · have hc : ¬ (c = k) := fun h => hk h.symm
        simpa [List.count_cons, hc] using t

theorem writeAll_eq_writeWhere (msg : Msg) (ks : List Client) :
    ∀ w : World, writeAll msg ks w = writeWhere msg (fun _ => true) ks w := by
  induction ks with
  | nil => intro w; rfl
  | cons c cs ih => intro w; simp [writeAll, writeWhere, ih]

theorem writeTo_returning (msg : Msg) (filter : Client → Except Fault Bool)
    (f : Client → Bool) (ks : List Client) (hf : ∀ c ∈ ks, filter c = .ok (f c)) :
    ∀ w : World, writeTo msg filter ks w = .ok (writeWhere msg f ks w) := by
  induction ks with
  | nil => intro w; rfl
  | cons c cs ih =>
    intro w
    have hc := hf c (by simp)
    have ih1 := ih (fun k hk => hf k (by simp [hk]))
    cases hb : f c
    · rw [hb] at hc
      simp [writeTo, writeWhere, hc, hb, ih1]
    · rw [hb] at hc
      simp [writeTo, writeWhere, hc, hb, ih1]

theorem writeTo_frame (msg : Msg) (filter : Client → Except Fault Bool) (ks : List Client) :
    ∀ w w1 : World, writeTo msg filter ks w = .ok w1 →
      w1 = { w with trace := w1.trace } := by
  induction ks with
  | nil =>
    intro w w1 h
    simp only [writeTo] at h
    injection h with h
    subst h
    rfl
  | cons c cs ih =>
    intro w w1 h
    simp only [writeTo] at h
    split at h
    · have h1 := ih _ _ h
      have h2 := (client_Write_frame c.base msg (w.emit (.writeCall c msg))).1
      rw [← Client_Write_base] at h2
      rw [h1, h2]
      rfl
    · exact ih _ _ h
    · cases h

theorem count_keys (m : Connections) (c : Client) :
    m.keys.count c = if c ∈ m.keys then 1 else 0 := by
  by_cases h : c ∈ m.keys
  · simp [h, List.count_eq_one_of_mem m.keys_nodup h]
  · simp [h, List.count_eq_zero_of_not_mem h]

/-- What the command of `BroadcastTo(msg, filter)` does on a running hub when
the filter returns `f c` on every registered client `c`. -/
theorem BroadcastTo_running (w : World) (msg : Msg) (filter : Client → Except Fault Bool)
    (f : Client → Bool) (hf : ∀ c ∈ w.conns.keys, filter c = .ok (f c))
    (hr : Hub.running w) :
    ∃ w1, BroadcastTo w msg filter = .ok w1 ∧ w1 = { w with trace := w1.trace } ∧
      ∀ k m, w1.trace.count (.writeCall k m) = w.trace.count (.writeCall k m) +
        if m = msg ∧ f k = true ∧ k ∈ w.conns.keys then 1 else 0 := by
  obtain ⟨e1, t1⟩ := writeWhere_spec msg f w.conns.keys { w with busy := true }
  have hw := writeTo_returning msg filter f w.conns.keys hf { w with busy := true }
  refine ⟨{ writeWhere msg f w.conns.keys { w with busy := true } with busy := false },
    ?_, ?_, ?_⟩
  · simp only [BroadcastTo, Do_running hr, broadcastToOp]
    rw [hw]
  · rw [e1]
    obtain ⟨_, _, _, hb⟩ := hr
    cases w
    simp only at hb
    subst hb
    rfl
  · intro k m
    have := t1 k m
    simp only [count_keys] at this
    rw [this]
    by_cases hm : m = msg <;> by_cases hf : f k = true <;> by_cases hk : k ∈ w.conns.keys <;>
      simp [hm, hf, hk]

theorem Broadcast_eq_BroadcastTo (w : World) (msg : Msg) :
    Broadcast w msg = BroadcastTo w msg allClients := by
  have : broadcastOp msg = broadcastToOp msg allClients := by
    funext w1
    simp only [broadcastOp, broadcastToOp, writeAll_eq_writeWhere]
    exact (writeTo_returning msg allClients (fun _ => true) w1.conns.keys
      (fun _ _ => rfl) w1).symm
  simp [Broadcast, BroadcastTo, this]

theorem Remove_running (w : World) (c : Client) (hr : Hub.running w) :
    Remove w c = .ok { w with conns := w.conns.erase c, busy := false } := by
  simp [Remove, Do_running hr]

theorem not_mem_keys_erase (m : Connections) (c : Client) : c ∉ (m.erase c).keys := by
  intro h
  exact ((AList.mem_erase (s := m)).mp (AList.mem_keys.mpr h)).1 rfl

/-- C4: on a running hub, for every payload `msg` and every registry,
`Broadcast(msg)` returns, and the command it executes invokes `Write(msg)`
exactly once on every client in the registry, the client whose inbound
callback issued the broadcast (the callback of the default factory is
`Broadcast`) among them; it invokes `Write` with no other payload, on no client
outside the registry, so on no client that a `Remove` has deleted before, and
the registry is as it was. -/
theorem C4_broadcast (w : World) (msg : Msg) (hr : Hub.running w) :
    ∃ w1, Broadcast w msg = .ok w1 ∧ defaultReadFn w msg = .ok w1 ∧
      w1.conns = w.conns ∧
      (∀ c ∈ w.conns.keys,
        w1.trace.count (.writeCall c msg) = w.trace.count (.writeCall c msg) + 1) ∧
      (∀ c, c ∉ w.conns.keys → ∀ m,
        w1.trace.count (.writeCall c m) = w.trace.count (.writeCall c m)) ∧
      (∀ c m, m ≠ msg →
        w1.trace.count (.writeCall c m) = w.trace.count (.writeCall c m)) ∧
      (∀ c, ∃ w2 w3, Remove w c = .ok w2 ∧ Broadcast w2 msg = .ok w3 ∧
        ∀ m, w3.trace.count (.writeCall c m) = w.trace.count (.writeCall c m)) := by
  obtain ⟨w1, e, f, t⟩ :=
    BroadcastTo_running w msg allClients (fun _ => true) (fun _ _ => rfl) hr
  rw [← Broadcast_eq_BroadcastTo] at e
  have hconns : w1.conns = w.conns := by rw [f]
  refine ⟨w1, e, e, hconns, ?_, ?_, ?_, ?_⟩
  · intro c hc
    rw [t]
    simp [hc]
  · intro c hc m
    rw [t]
    simp [hc]
  · intro c m hm
    rw [t]
    simp [hm]
  · intro c
    have hr2 : Hub.running { w with conns := w.conns.erase c, busy := false } :=
      ⟨hr.1, hr.2.1, hr.2.2.1, rfl⟩
    obtain ⟨w3, e3, _, t3⟩ :=
      BroadcastTo_running _ msg allClients (fun _ => true) (fun _ _ => rfl) hr2
    rw [← Broadcast_eq_BroadcastTo] at e3
    refine ⟨_, w3, Remove_running w c hr, e3, ?_⟩
    intro m
    rw [t3]
    have hn : c ∉ (w.conns.erase c).keys := not_mem_keys_erase w.conns c
    rw [if_neg (fun h => hn h.2.2)]
    rfl

theorem C4_broadcast_witness :
    ∃ w1, defaultReadFn twoPlain [84, 10] = .ok w1 ∧
      w1.trace.count (.writeCall (.dflt 0) [84, 10]) = 1 ∧
      w1.trace.count (.writeCall (.dflt 1) [84, 10]) = 1 ∧
      w1.trace.count (.writeCall (.dflt 2) [84, 10]) = 0 := by
  obtain ⟨w1, _, e, _, a, b, _⟩ := C4_broadcast twoPlain [84, 10] (by decide)
  refine ⟨w1, e, ?_, ?_, ?_⟩
  · rw [a _ (by decide)]; decide
  · rw [a _ (by decide)]; decide
  · rw [b _ (by decide)]; decide

theorem exceptSelf_returns (id : String) {ks : List Client}
    (h : ∀ c ∈ ks, c.isCustom = true) :
    ∀ c ∈ ks, exceptSelf id c =
      .ok (match c with
        | .custom _ _ id1 => id1 != id
        | .dflt _ => false) := by
  intro c hc
  cases c with
  | dflt p => exact absurd (h _ hc) (by simp [Client.isCustom])
  | custom q inner id1 => rfl

/-- The filter of examples/custom panics, and `BroadcastTo` with it, as soon as
the registry holds a client that is not a `*myCustomClient`. -/
theorem writeTo_exceptSelf_panics (msg : Msg) (id : String) (ks : List Client)
    (h : ∃ c ∈ ks, c.isCustom = false) :
    ∀ w : World, writeTo msg (exceptSelf id) ks w = .error .panicked := by
  induction ks with
  | nil => obtain ⟨c, hc, _⟩ := h; cases hc
  | cons k ks ih =>
    intro w
    cases k with
    | dflt p => simp [writeTo, exceptSelf]
    | custom q inner id1 =>
      have h1 : ∃ c ∈ ks, c.isCustom = false := by
        obtain ⟨c, hc, hn⟩ := h
        rcases List.mem_cons.mp hc with hc | hc
        · subst hc; simp [Client.isCustom] at hn
        · exact ⟨c, hc, hn⟩
      cases hb : (id1 != id) <;> simp [writeTo, exceptSelf, hb, ih h1]

theorem customReadFn_panics (w : World) (msg : Msg) (id : String) (hr : Hub.running w)
    (h : ∃ c ∈ w.conns.keys, c.isCustom = false) :
    customReadFn id w msg = .error .panicked := by
  simp only [customReadFn, BroadcastTo, Do_running hr, broadcastToOp]
  rw [writeTo_exceptSelf_panics msg id w.conns.keys h]

/-- C5: on a running hub, for every payload `msg`, every predicate `p` that
returns, and every registry, `BroadcastTo(msg, p)` returns, and the command
it executes invokes `Write(msg)` exactly once on every registered client for
which `p` is true and invokes `Write` on no client for which `p` is false, and
on none outside the registry; the registry is as it was.  With the predicate
`return true` of hub_test.go it is `Broadcast(msg)`.  With the predicate of
examples/custom, every id except my own, on a registry of `*myCustomClient`s
(what the factory of that example registers; on any other client the predicate
panics), `Write` is not invoked on the sender and is invoked once on every
registered client of another id. -/
theorem C5_broadcastTo (w : World) (msg : Msg) (p : Client → Bool) (hr : Hub.running w) :
    ∃ w1, BroadcastTo w msg (returning p) = .ok w1 ∧
      w1.conns = w.conns ∧
      (∀ c ∈ w.conns.keys, p c = true →
        w1.trace.count (.writeCall c msg) = w.trace.count (.writeCall c msg) + 1) ∧
      (∀ c, p c = false → ∀ m,
        w1.trace.count (.writeCall c m) = w.trace.count (.writeCall c m)) ∧
      (∀ c, c ∉ w.conns.keys → ∀ m,
        w1.trace.count (.writeCall c m) = w.trace.count (.writeCall c m)) ∧
      BroadcastTo w msg allClients = Broadcast w msg ∧
      (∀ id, (∀ c ∈ w.conns.keys, c.isCustom = true) →
        ∃ w2, customReadFn id w msg = .ok w2 ∧ w2.conns = w.conns ∧
          (∀ ptr inner m, w2.trace.count (.writeCall (.custom ptr inner id) m) =
            w.trace.count (.writeCall (.custom ptr inner id) m)) ∧
          ∀ ptr1 inner1 id1, id1 ≠ id → .custom ptr1 inner1 id1 ∈ w.conns.keys →
            w2.trace.count (.writeCall (.custom ptr1 inner1 id1) msg) =
              w.trace.count (.writeCall (.custom ptr1 inner1 id1) msg) + 1) := by
  obtain ⟨w1, e, f, t⟩ := BroadcastTo_running w msg (returning p) p (fun _ _ => rfl) hr
  have hconns : w1.conns = w.conns := by rw [f]
  refine ⟨w1, e, hconns, ?_, ?_, ?_, (Broadcast_eq_BroadcastTo w msg).symm, ?_⟩
  · intro c hc hp
    rw [t]
    simp [hc, hp]
  · intro c hp m
    rw [t]
    simp [hp]
  · intro c hc m
    rw [t]
    simp [hc]
  · intro id hall
    obtain ⟨w2, e2, f2, t2⟩ :=
      BroadcastTo_running w msg (exceptSelf id) _ (exceptSelf_returns id hall) hr
    have hconns2 : w2.conns = w.conns := by rw [f2]
    refine ⟨w2, e2, hconns2, ?_, ?_⟩
    · intro ptr inner m
      rw [t2]
      simp
    · intro ptr1 inner1 id1 hne hmem
      rw [t2]
      simp [hne, hmem]

theorem C5_broadcastTo_witness :
    (∀ c ∈ twoClients.conns.keys, c.isCustom = true) ∧
    ∃ w1, customReadFn "1" twoClients [104, 105] = .ok w1 ∧
      w1.trace.count (.writeCall (.custom 1 (.dflt 0) "1") [104, 105]) = 0 ∧
      w1.trace.count (.writeCall (.custom 3 (.dflt 2) "2") [104, 105]) = 1 := by
  obtain ⟨_, _, _, _, _, _, _, h⟩ :=
    C5_broadcastTo twoClients [104, 105] (fun _ => true) (by decide)
  obtain ⟨w2, e, _, a, b⟩ := h "1" (by decide)
  refine ⟨by decide, w2, e, ?_, ?_⟩
  · rw [a]; decide
  · rw [b 3 (.dflt 2) "2" (by decide) (by decide)]; decide

/-! ## Close and the registry -/

theorem client_Write_closed {p : Nat} {w : World} (h : p ∈ w.closed) (msg : Msg) :
    client.Write p msg w = w := by
  simp [client.Write, h]

theorem client_Write_open {p : Nat} {w : World} (h : p ∉ w.closed) (msg : Msg) :
    (client.Write p msg w).trace = .send p msg :: w.trace := by
  simp [client.Write, h, World.emit]

/-- C3 at the clients of `TestCloseAndRemoveConnection`: the hub has accepted
two connections through the factory that wraps the default client; `c1.Close()`
returns, the transport of `c1` is closed, its close signal has fired and
`hub.Remove` has been called once and executed, with the embedded `*client` as
its argument; the registry still holds the entry of `c1`. -/
theorem C3_custom_client_stays_registered :
    twoClients.conns.keys = [.custom 3 (.dflt 2) "2", .custom 1 (.dflt 0) "1"] ∧
    Hub.running twoClients ∧
    ∃ w1, Client.Close (.custom 1 (.dflt 0) "1") twoClients = .ok w1 ∧
      w1.closed = [0] ∧
      w1.trace.count (.connClose 0) = 1 ∧
      w1.trace.count (.removeReq (.dflt 0)) = 1 ∧
      Client.custom 1 (.dflt 0) "1" ∈ w1.conns.keys ∧
      w1.conns.keys = twoClients.conns.keys :=
  ⟨by decide, by decide, _,
    client_Close_first (p := 0) (w := twoClients) (by decide) (by decide) (by decide),
    by decide, by decide, by decide, by decide, by decide⟩

/-- With the default factory the key of the registry is the `*client` itself,
and `Close()` deregisters it. -/
theorem default_client_deregisters :
    twoPlain.conns.keys = [.dflt 1, .dflt 0] ∧
    ∃ w1, Client.Close (.dflt 0) twoPlain = .ok w1 ∧ w1.conns.keys = [.dflt 1] :=
  ⟨by decide, _,
    client_Close_first (p := 0) (w := twoPlain) (by decide) (by decide) (by decide),
    by decide⟩

/-- On every running hub, a client made by a factory that wraps the default
client is still registered after its `Close()`: the command of the `Remove`
inside `Close()` deletes the key `dflt p`, which is not the key `custom q (dflt p) id`. -/
theorem Close_keeps_wrapper (w : World) (q p : Nat) (id : String) (hr : Hub.running w)
    (hc : Consistent w) (hm : Client.custom q (.dflt p) id ∈ w.conns.keys) :
    ∃ w1, Client.Close (.custom q (.dflt p) id) w = .ok w1 ∧
      Client.custom q (.dflt p) id ∈ w1.conns.keys ∧ p ∈ w1.onceDone := by
  by_cases h1 : p ∈ w.onceDone
  · exact ⟨w, client_Close_done h1, hm, h1⟩
  · have h2 : p ∉ w.closed := fun h => h1 (hc p h)
    refine ⟨_, client_Close_first h1 h2 (Or.inr ⟨hr.1, hr.2.2.1, hr.2.2.2⟩), ?_, ?_⟩
    · simp only [hr.2.1]
      show Client.custom q (.dflt p) id ∈ w.conns.erase (.dflt p)
      rw [AList.mem_erase]
      exact ⟨by simp, hm⟩
    · simp

/-! ## What reaches the writer pumps -/

theorem writeWhere_sends (msg : Msg) (f : Client → Bool) (ks : List Client) (p : Nat) :
    ∀ w : World, (writeWhere msg f ks w).trace.count (.send p msg) =
      w.trace.count (.send p msg) +
        if p ∈ w.closed then 0 else (ks.filter (fun k => f k && decide (k.base = p))).length := by
  induction ks with
  | nil => intro w; simp [writeWhere]
  | cons c cs ih =>
    intro w
    by_cases hf : f c = true
    · simp only [writeWhere, hf, if_true]
      rw [ih, Client_Write_base]
      by_cases hc : c.base ∈ w.closed
      · have e : client.Write c.base msg (w.emit (.writeCall c msg)) = w.emit (.writeCall c msg) :=
          client_Write_closed (w := w.emit (.writeCall c msg)) hc msg
        rw [e]
        by_cases hp : p ∈ w.closed
        · simp [World.emit, hp]
        · have hne : ¬ (c.base = p) := fun h => hp (h ▸ hc)
          simp [World.emit, hp, hf, hne, List.filter_cons]
      · have hcl : (client.Write c.base msg (w.emit (.writeCall c msg))).closed = w.closed := by
          simp [client.Write, World.emit, hc]
        have htr : (client.Write c.base msg (w.emit (.writeCall c msg))).trace =
            .send c.base msg :: .writeCall c msg :: w.trace :=
          client_Write_open (w := w.emit (.writeCall c msg)) hc msg
        rw [hcl, htr]
        by_cases hp : p ∈ w.closed
        · have hne : ¬ (c.base = p) := fun h => hc (h ▸ hp)
          simp [hp, hne, List.count_cons]
        · by_cases hb : c.base = p
          · simp [hp, hf, hb, List.filter_cons, List.count_cons]; omega
          · simp [hp, hf, hb, List.filter_cons, List.count_cons]
    · have hf1 : f c = false := by simpa using hf
      simp only [writeWhere, hf1, Bool.false_eq_true, if_false]
      rw [ih]
      simp [hf1, List.filter_cons]

/-- The payload handed to the writer pump of a default client by
`Broadcast(msg)`: a registered client that is the only registry key on its
`*client` receives `msg` once on its `send` channel when its close signal has
not fired, and nothing when it has (`Write` returns at once). -/
theorem Broadcast_hands_over (w : World) (msg : Msg) (c : Client) (hr : Hub.running w)
    (hc : c ∈ w.conns.keys) (hu : ∀ k ∈ w.conns.keys, k.base = c.base → k = c) :
    ∃ w1, Broadcast w msg = .ok w1 ∧
      w1.trace.count (.send c.base msg) =
        w.trace.count (.send c.base msg) + if c.base ∈ w.closed then 0 else 1 := by
  refine ⟨{ writeWhere msg (fun _ => true) w.conns.keys { w with busy := true } with
    busy := false }, ?_, ?_⟩
  · simp [Broadcast, Do_running hr, broadcastOp, writeAll_eq_writeWhere]
  · have h := writeWhere_sends msg (fun _ => true) w.conns.keys c.base { w with busy := true }
    have hl : (w.conns.keys.filter
        (fun k => (fun _ => true) k && decide (k.base = c.base))).length = 1 := by
      have : w.conns.keys.filter (fun k => (fun _ => true) k && decide (k.base = c.base)) =
          w.conns.keys.filter (fun k => k == c) := by
        apply List.filter_congr
        intro k hk
        by_cases hkc : k = c
        · subst hkc; simp
        · have : ¬ (k.base = c.base) := fun hb => hkc (hu k hk hb)
          simp [hkc, this]
      rw [this, ← List.countP_eq_length_filter, ← List.count_eq_countP, count_keys]
      simp [hc]
    rw [hl] at h
    exact h

/-! ## The invariant `Consistent` -/

theorem Consistent_New (up : Upgrader) (fn : Option ClientFn) : Consistent (New up fn) := by
  intro p hp
  simp [New, SetPongWait, SetWriteWait, SetReadLimit] at hp

theorem Consistent_of_eq {w w1 : World} (hc : Consistent w) (h1 : w1.closed = w.closed)
    (h2 : w1.onceDone = w.onceDone) : Consistent w1 := by
  intro p hp
  rw [h1] at hp
  rw [h2]
  exact hc p hp

theorem Do_frame {w w1 : World} (fn : Op)
    (hfn : ∀ v v1, fn v = .ok v1 → v1.closed = v.closed ∧ v1.onceDone = v.onceDone)
    (h : Do w fn = .ok w1) : w1.closed = w.closed ∧ w1.onceDone = w.onceDone := by
  unfold Do at h
  split at h
  · injection h with h; subst h; exact ⟨rfl, rfl⟩
  · split at h
    · cases h
    · split at h
      · split at h
        · next h1 e =>
          injection h with h
          subst h
          exact hfn { w with busy := true } h1 e
        · cases h
      · cases h

theorem Remove_frame {w w1 : World} {c : Client} (h : Remove w c = .ok w1) :
    w1.closed = w.closed ∧ w1.onceDone = w.onceDone := by
  refine Do_frame (fun v => .ok { v with conns := v.conns.erase c }) ?_ h
  intro v v1 e
  injection e with e
  subst e
  exact ⟨rfl, rfl⟩

theorem Consistent_Remove {w w1 : World} {c : Client} (hc : Consistent w)
    (h : Remove w c = .ok w1) : Consistent w1 :=
  Consistent_of_eq hc (Remove_frame h).1 (Remove_frame h).2

theorem Consistent_BroadcastTo {w w1 : World} {msg : Msg}
    {f : Client → Except Fault Bool}
    (hc : Consistent w) (h : BroadcastTo w msg f = .ok w1) : Consistent w1 := by
  have hf := Do_frame (broadcastToOp msg f) (by
    intro v v1 e
    simp only [broadcastToOp] at e
    have e1 := writeTo_frame msg f v.conns.keys v v1 e
    rw [e1]
    exact ⟨rfl, rfl⟩) h
  exact Consistent_of_eq hc hf.1 hf.2

theorem Consistent_Broadcast {w w1 : World} {msg : Msg}
    (hc : Consistent w) (h : Broadcast w msg = .ok w1) : Consistent w1 := by
  rw [Broadcast_eq_BroadcastTo] at h
  exact Consistent_BroadcastTo hc h

theorem Consistent_Close {w w1 : World} {c : Client} (hc : Consistent w)
    (h : c.Close w = .ok w1) : Consistent w1 := by
  rw [Client_Close_base] at h
  unfold client.Close at h
  split at h
  · injection h with h; subst h; exact hc
  · next h1 =>
    simp only [World.emit] at h
    split at h
    · cases h
    · have hf := Remove_frame h
      intro p hp
      rw [hf.1] at hp
      rw [hf.2]
      simp only [List.mem_cons] at hp ⊢
      rcases hp with hp | hp
      · exact Or.inl hp
      · exact Or.inr (hc p hp)

theorem Consistent_Accept {w w1 : World} {r : Request} {e : Option String}
    (hc : Consistent w) (h : Accept w r = .ok (e, w1)) : Consistent w1 := by
  unfold Accept at h
  split at h
  · injection h with h
    injection h with _ h
    subst h; exact hc
  · simp only [World.emit] at h
    split at h
    · injection h with h
      injection h with _ h
      subst h; exact hc
    · split at h
      · next h2 e2 =>
        injection h with h
        injection h with _ h
        subst h
        have hf := Do_frame (addOp _ r) (by
          intro v v1 ev
          simp only [addOp, World.emit] at ev
          injection ev with ev
          subst ev
          exact ⟨rfl, rfl⟩) e2
        exact Consistent_of_eq hc hf.1 hf.2
      · cases h

theorem Consistent_Shutdown {w w1 : World} (hr : Hub.running w) (hc : Consistent w)
    (h : Shutdown w = .ok w1) : Consistent w1 := by
  obtain ⟨v, e, _, _, _, cv, _⟩ := Shutdown_first hr.1 hr.2.1 hr.2.2.1 hr.2.2.2 hc
  rw [e] at h
  injection h with h
  subst h
  exact cv

/-! ## The writer pump: theorems -/

theorem writeIter_breaks {s : Select} {r : Replies} (h : iterBreaks s r)
    (log : List PumpEvent) : (client.writeIter s r log).1 = false := by
  obtain ⟨d, pg, nw, wr, cl⟩ := r
  cases s with
  | closeSignal => exact absurd h (by simp [iterBreaks])
  | tick =>
    cases d <;> cases pg <;> simp_all [iterBreaks, client.writeIter]
  | send msg =>
    cases d <;> cases nw <;> cases cl <;> simp_all [iterBreaks, client.writeIter]

theorem writeIter_no_close (s : Select) (r : Replies) {log : List PumpEvent}
    (h : PumpEvent.close ∉ log) : PumpEvent.close ∉ (client.writeIter s r log).2 := by
  obtain ⟨d, pg, nw, wr, cl⟩ := r
  cases s with
  | closeSignal => simpa [client.writeIter] using h
  | tick =>
    cases d <;> cases pg <;> simp [client.writeIter, h]
  | send msg =>
    cases d <;> cases nw <;> cases wr <;> cases cl <;> simp [client.writeIter, h]

theorem writeLoop_no_close (sched : List (Select × Replies)) :
    ∀ log : List PumpEvent, PumpEvent.close ∉ log →
      PumpEvent.close ∉ (client.writeLoop sched log).2 := by
  induction sched with
  | nil => intro log h; simpa [client.writeLoop] using h
  | cons x rest ih =>
    intro log h
    obtain ⟨s, r⟩ := x
    have h1 := writeIter_no_close s r h
    cases e : client.writeIter s r log with
    | mk b log1 =>
      rw [e] at h1
      cases b
      · simpa [client.writeLoop, e] using h1
      · simpa [client.writeLoop, e] using ih log1 h1

theorem writeLoop_append (pre l : List (Select × Replies)) :
    ∀ log log0 : List PumpEvent, client.writeLoop pre log = (false, log0) →
      client.writeLoop (pre ++ l) log = client.writeLoop l log0 := by
  induction pre with
  | nil =>
    intro log log0 h
    simp only [client.writeLoop, Prod.mk.injEq, true_and] at h
    subst h
    rfl
  | cons x rest ih =>
    intro log log0 h
    obtain ⟨s, r⟩ := x
    cases e : client.writeIter s r log with
    | mk b log1 =>
      cases b
      · simp [client.writeLoop, e] at h
      · simp only [client.writeLoop, e] at h
        simp only [List.cons_append, client.writeLoop, e]
        exact ih log1 log0 h

theorem writeLoop_breaks {s : Select} {r : Replies} (h : iterBreaks s r)
    (rest : List (Select × Replies)) (log : List PumpEvent) :
    client.writeLoop ((s, r) :: rest) log = (true, (client.writeIter s r log).2) := by
  have hb := writeIter_breaks h log
  cases e : client.writeIter s r log with
  | mk b log1 =>
    rw [e] at hb
    simp only at hb
    subst hb
    simp [client.writeLoop, e]

theorem client_Close_returns {p : Nat} {w : World} (ha : Hub.accepts w) (hc : Consistent w) :
    ∃ w1, client.Close p w = .ok w1 ∧ p ∈ w1.onceDone ∧
      (p ∉ w.onceDone → p ∈ w1.closed ∧
        w1.trace = .removeReq (.dflt p) :: .closeSignal p :: .connClose p :: w.trace) := by
  by_cases h1 : p ∈ w.onceDone
  · exact ⟨w, client_Close_done h1, h1, fun h => absurd h1 h⟩
  · have h2 : p ∉ w.closed := fun h => h1 (hc p h)
    exact ⟨_, client_Close_first h1 h2 ha, by simp, fun _ => ⟨by simp, rfl⟩⟩

/-- The body of the loop has no `break FOR` after a failed `w.Write(msg)`: the
error is logged and the decision is left to the `w.Close()` that follows.  On
replies with `w.Close()` returning `nil` the loop would go on. -/
theorem writeIter_write_error (msg : Msg) (r : Replies) (e : String)
    (log : List PumpEvent) (hd : r.deadline = none) (hn : r.nextWriter = none)
    (hw : r.write = some e) (hc : r.close = none) :
    client.writeIter (.send msg) r log =
      (true, .closeWriter :: .logged "error writing message" e :: .write msg ::
        .nextWriter :: .setWriteDeadline :: log) := by
  simp [client.writeIter, hd, hn, hw, hc]

/-- The replies `writeFails` are not those of a writer that keeps its error,
and on them the loop goes on. -/
theorem writeFails_not_keepsError :
    ¬ writeFails.keepsError ∧
    (client.writeIter (.send [104, 105]) writeFails []).1 = true := by
  constructor <;> decide

theorem iterBreaks_of_fails {s : Select} {r : Replies} (hk : r.keepsError)
    (h : iterFails s r) : iterBreaks s r := by
  cases s with
  | closeSignal => exact h
  | tick => exact h
  | send msg =>
    rcases h with h | h | h | h
    · exact Or.inl h
    · exact Or.inr (Or.inl h)
    · exact Or.inr (Or.inr (hk h))
    · exact Or.inr (Or.inr h)

/-- An iteration that executes `break FOR` ends the loop, whatever would
follow, and `write` returns after its deferred function has invoked `Close()`
on the client, once. -/
theorem writer_pump_breaks (p : Nat) (w : World) (pre rest : List (Select × Replies))
    (s : Select) (r : Replies) (log0 : List PumpEvent)
    (hfail : iterBreaks s r)
    (hpre : client.writeLoop pre [] = (false, log0))
    (hpos : 0 < PingInterval w) (ha : Hub.accepts w) (hc : Consistent w) :
    (client.writeIter s r log0).1 = false ∧
    client.writeLoop (pre ++ (s, r) :: rest) [] = (true, (client.writeIter s r log0).2) ∧
    ∃ w1 log, client.write p (pre ++ (s, r) :: rest) w = .ok (true, log, w1) ∧
      log = .closeSend :: .tickerStop :: .close :: (client.writeIter s r log0).2 ∧
      log.count .close = 1 ∧
      client.Close p w = .ok w1 ∧
      p ∈ w1.onceDone ∧
      (p ∉ w.onceDone → p ∈ w1.closed ∧
        w1.trace = .removeReq (.dflt p) :: .closeSignal p :: .connClose p :: w.trace) := by
  have hloop : client.writeLoop (pre ++ (s, r) :: rest) [] =
      (true, (client.writeIter s r log0).2) := by
    rw [writeLoop_append pre _ [] log0 hpre]
    exact writeLoop_breaks hfail rest log0
  obtain ⟨w1, e1, o1, t1⟩ := client_Close_returns (p := p) ha hc
  refine ⟨writeIter_breaks hfail log0, hloop, w1, _, ?_, rfl, ?_, e1, o1, t1⟩
  · have hp : ¬ (PingInterval w ≤ 0) := by omega
    simp only [client.write, hp, if_false, hloop, e1]
  · have h0 : PumpEvent.close ∉ log0 := by
      have := writeLoop_no_close pre [] (by simp)
      rw [hpre] at this
      exact this
    have h1 := writeIter_no_close s r h0
    simp [List.count_cons, List.count_eq_zero_of_not_mem h1]

/-- C11: in every iteration of the writer pump of a default client, if setting
the write deadline fails, sending the ping fails, or writing the outbound
payload as a message fails (`NextWriter`, `w.Write(msg)` or `w.Close()` returns
an error, the writer keeping the error of a failed `w.Write`), then the loop
ends in that iteration, whatever would follow, and `write` returns after
its deferred function has invoked `Close()` on that client, once; the client
is closed from then on. -/
theorem C11_writer_pump_failure (p : Nat) (w : World) (pre rest : List (Select × Replies))
    (s : Select) (r : Replies) (log0 : List PumpEvent)
    (hk : r.keepsError) (hfail : iterFails s r)
    (hpre : client.writeLoop pre [] = (false, log0))
    (hpos : 0 < PingInterval w) (ha : Hub.accepts w) (hc : Consistent w) :
    (client.writeIter s r log0).1 = false ∧
    client.writeLoop (pre ++ (s, r) :: rest) [] = (true, (client.writeIter s r log0).2) ∧
    ∃ w1 log, client.write p (pre ++ (s, r) :: rest) w = .ok (true, log, w1) ∧
      log = .closeSend :: .tickerStop :: .close :: (client.writeIter s r log0).2 ∧
      log.count .close = 1 ∧
      client.Close p w = .ok w1 ∧
      p ∈ w1.onceDone ∧
      (p ∉ w.onceDone → p ∈ w1.closed ∧
        w1.trace = .removeReq (.dflt p) :: .closeSignal p :: .connClose p :: w.trace) :=
  writer_pump_breaks p w pre rest s r log0 (iterBreaks_of_fails hk hfail) hpre hpos ha hc

theorem C11_writer_pump_failure_witness :
    writeBroken.keepsError ∧ iterFails (.send [104, 105]) writeBroken ∧
    ∃ w1 log,
      client.write 0
        [(.tick, Replies.allOk), (.send [104, 105], writeBroken), (.tick, Replies.allOk)]
        onePlain = .ok (true, log, w1) ∧
      PumpEvent.logged "error writing message" "broken pipe" ∈ log ∧
      log.count .close = 1 ∧ 0 ∈ w1.onceDone ∧ 0 ∈ w1.closed := by
  obtain ⟨_, _, w1, log, e, l, c, _, o, t⟩ :=
    C11_writer_pump_failure 0 onePlain [(.tick, Replies.allOk)] [(.tick, Replies.allOk)]
      (.send [104, 105]) writeBroken
      (client.writeLoop [(.tick, Replies.allOk)] []).2
      (by decide) (by decide) (by decide) (by decide) (by decide) (by decide)
  refine ⟨by decide, by decide, w1, log, e, ?_, c, o, (t (by decide)).1⟩
  rw [l]
  decide

end Ws
